import Mathlib

/-!
Shallow embedding of the shader-pipeline repository's core: the multi-pass
WebGL compositor (src/src/components/WebGLRenderer.tsx), the uniform binder
it runs per pass, the pass-list reorder and object-list operations of the
studio component, the overlay object renderer, and the video frame-source
readiness state machine.  Machine numbers (JS doubles) are modelled as
rationals; GLSL programs are opaque values with a semantics parameter.
-/

namespace ShaderPipeline

/-- Embeds the Shader record of src/types (unnamed part_008): id, name,
fragment source, enabled flag and the per-shader scalar uniform map. -/
structure Shader where
  id : String
  name : String
  fragmentShader : String
  enabled : Bool
  uniforms : List (String × ℚ)
  deriving DecidableEq, Repr

/-- Embeds the three object kinds of the CanvasObject type. -/
inductive ObjType where
  | text
  | rect
  | circle
  deriving DecidableEq, Repr

/-- Embeds the CanvasObject record of src/types (unnamed part_008). -/
structure CanvasObject where
  id : String
  type : ObjType
  x : ℚ
  y : ℚ
  width : ℚ
  height : ℚ
  text : Option String
  color : String
  rotation : ℚ
  visible : Bool
  deriving DecidableEq, Repr

/-- Value of a single named input supplied to a pass's program; nan3 stands
for the vec3 a draw receives when the hex color fails to parse (the JS code
feeds NaN components through uniform3f in that case). -/
inductive UniformValue where
  | f (x : ℚ)
  | vec2 (x y : ℚ)
  | vec3 (x y z : ℚ)
  | nan3
  | tex0
  deriving DecidableEq, Repr

/-- Value table for one hexadecimal digit character, the digit set accepted
by the JS parseInt(_, 16) primitive that WebGLRenderer.tsx lines 308-310
apply to each two-character slice of the color string. -/
def hexDigitVal (c : Char) : Option ℕ :=
  List.lookup c
    [('0', 0), ('1', 1), ('2', 2), ('3', 3), ('4', 4), ('5', 5), ('6', 6),
     ('7', 7), ('8', 8), ('9', 9),
     ('a', 10), ('b', 11), ('c', 12), ('d', 13), ('e', 14), ('f', 15),
     ('A', 10), ('B', 11), ('C', 12), ('D', 13), ('E', 14), ('F', 15)]

/-- Accumulator loop of parseInt(_, 16): consume leading hex digits,
stopping at the first character that is not a hex digit. -/
def parseHexAux : ℕ → List Char → ℕ
  | acc, [] => acc
  | acc, c :: cs =>
    match hexDigitVal c with
    | some d => parseHexAux (16 * acc + d) cs
    | none => acc

/-- Embeds parseInt(s, 16): none models the NaN result on an input whose
first character is not a hex digit (or an empty input). -/
def parseHex? : List Char → Option ℕ
  | [] => none
  | c :: cs =>
    match hexDigitVal c with
    | some d => some (parseHexAux d cs)
    | none => none

/-- Embeds the JS expression obj.color.replace(&quot;#&quot;, &quot;&quot;):
String.replace with a string pattern removes the first occurrence only. -/
def stripHash : List Char → List Char
  | [] => []
  | c :: cs => if c = '#' then cs else c :: stripHash cs

/-- Embeds WebGLRenderer.tsx lines 307-310: strip the first hash, slice the
three two-character groups (substr 0 2 / substr 2 2 / substr 4 2), parse
each as hex, divide by 255.  Returns none when any parseInt yields NaN. -/
def decodeColor (s : String) : Option (ℚ × ℚ × ℚ) :=
  let cs := stripHash s.data
  match parseHex? (cs.take 2), parseHex? ((cs.drop 2).take 2),
        parseHex? ((cs.drop 4).take 2) with
  | some r, some g, some b => some ((r : ℚ) / 255, (g : ℚ) / 255, (b : ℚ) / 255)
  | _, _, _ => none

/-- Embeds WebGLRenderer.tsx lines 292-297: the object's pos uniform, the
normalized bounding-box center with the y axis flipped from the canvas's
top-left origin to WebGL's bottom-left origin. -/
def objPos (o : CanvasObject) (cw ch : ℚ) : ℚ × ℚ :=
  let centerX := o.x + o.width / 2
  let centerY := o.y + o.height / 2
  (centerX / cw, 1 - centerY / ch)

/-- Embeds WebGLRenderer.tsx line 300: the object's size uniform. -/
def objSize (o : CanvasObject) (cw ch : ℚ) : ℚ × ℚ :=
  (o.width / cw, o.height / ch)

/-- Embeds WebGLRenderer.tsx lines 284-313: the four named inputs the
binder supplies for the object at list index i, in the order the code
assigns them (pos, size, rotation, color).  The visible flag is not
consulted anywhere here, exactly as in the source. -/
def objUniformGroup (i : ℕ) (o : CanvasObject) (cw ch : ℚ) :
    List (String × UniformValue) :=
  [(s!"u_object{i}_pos", UniformValue.vec2 (objPos o cw ch).1 (objPos o cw ch).2),
   (s!"u_object{i}_size", UniformValue.vec2 (objSize o cw ch).1 (objSize o cw ch).2),
   (s!"u_object{i}_rotation", UniformValue.f o.rotation),
   (s!"u_object{i}_color",
     match decodeColor o.color with
     | some (r, g, b) => UniformValue.vec3 r g b
     | none => UniformValue.nan3)]

/-- Embeds the objects.forEach loop of WebGLRenderer.tsx lines 284-313:
one uniform group per object, indexed by current list position. -/
def objectUniforms (i : ℕ) (objs : List CanvasObject) (cw ch : ℚ) :
    List (String × UniformValue) :=
  match objs with
  | [] => []
  | o :: os => objUniformGroup i o cw ch ++ objectUniforms (i + 1) os cw ch

/-- Embeds WebGLRenderer.tsx line 273: the u_time value is Date.now()/1000,
the wall-clock timestamp in milliseconds divided by 1000. -/
def suppliedTime (nowMs : ℚ) : ℚ := nowMs / 1000

/-- Embeds the full uniform assignment of one pass draw, WebGLRenderer.tsx
lines 269-313: the input texture on unit 0, the resolution, the wall-clock
time, the shader's own scalar uniforms, then the per-object groups. -/
def uniformSet (sh : Shader) (objs : List CanvasObject) (cw ch nowMs : ℚ) :
    List (String × UniformValue) :=
  [("u_texture", UniformValue.tex0),
   ("u_resolution", UniformValue.vec2 cw ch),
   ("u_time", UniformValue.f (suppliedTime nowMs))]
  ++ sh.uniforms.map (fun p => (p.1, UniformValue.f p.2))
  ++ objectUniforms 0 objs cw ch

/-- Read source of a draw call: the uploaded video frame texture or one of
the pooled intermediate textures created in setupWebGL. -/
inductive Tex where
  | video
  | pool (slot : ℕ)
  deriving DecidableEq, Repr

/-- Render target of a draw call: the visible canvas (framebuffer null) or
a pooled framebuffer slot. -/
inductive Target where
  | screen
  | fb (slot : ℕ)
  deriving DecidableEq, Repr

/-- One issued gl.drawArrays call of the render loop, with the program it
used, the shader it was issued for, the texture bound on unit 0 and the
framebuffer bound as target. -/
structure DrawCall (Prog : Type) where
  prog : Prog
  shaderId : String
  shaderName : String
  input : Tex
  target : Target
  deriving DecidableEq, Repr

/-- Contents of the GPU surfaces the loop writes: the three pooled
textures (by slot) and the visible canvas. -/
structure RenderState (Img : Type) where
  pool : ℕ → Img
  screen : Img

/-- Mutable state of the enabledShaders.forEach loop in render
(WebGLRenderer.tsx lines 184-322): currentTexture, textureIndex, the
surface contents, and the log of draw calls issued this tick. -/
structure LoopState (Img Prog : Type) where
  cur : Tex
  tIdx : ℕ
  st : RenderState Img
  draws : List (DrawCall Prog)

/-- Image currently held by a texture: the video source frame or a pooled
texture's contents. -/
def texValue {Img : Type} (source : Img) (st : RenderState Img) : Tex → Img
  | Tex.video => source
  | Tex.pool n => st.pool n

/-- Effect of a draw on the surface contents: writing to the bound
framebuffer replaces that slot's image, writing to framebuffer null
replaces the visible canvas image. -/
def writeTarget {Img : Type} (t : Target) (img : Img) (st : RenderState Img) :
    RenderState Img :=
  match t with
  | Target.screen => { st with screen := img }
  | Target.fb n => { st with pool := fun m => if m = n then img else st.pool m }

/-- Embeds setupWebGL lines 95-105 of WebGLRenderer.tsx: programsRef is
rebuilt by pushing, for each shader in list order, the program compiled
from its fragment source - shaders whose fragment stage fails to compile
push nothing, so the array is the compacted list of successes. -/
def setupPrograms {Prog : Type} (compile : String → Option Prog)
    (shaders : List Shader) : List Prog :=
  shaders.filterMap (fun sh => compile sh.fragmentShader)

/-- Embeds render lines 236-237: programIndex is the shader's position in
the full shaders list (findIndex by id) and the program is looked up at
that position in programsRef.  A JS findIndex miss yields -1 and an
undefined array read; List.findIdx yields the length and an out-of-range
lookup, the same skip behaviour. -/
def programLookup {Prog : Type} (compile : String → Option Prog)
    (shaders : List Shader) (sh : Shader) : Option Prog :=
  (setupPrograms compile shaders)[shaders.findIdx (fun s => s.id == sh.id)]?

/-- Embeds the enabledShaders.forEach body, render lines 235-322.  The
code's target test, index &lt; enabledShaders.length - 1, holds exactly when
the element is not the last of the enabled list, i.e. when the remaining
tail is nonempty.  A pass whose program lookup fails is skipped without
touching currentTexture or textureIndex (the early return at line 238). -/
def renderPasses {Img Prog : Type}
    (run : Prog → List (String × UniformValue) → Img → Img)
    (lookup : Shader → Option Prog)
    (objs : List CanvasObject) (cw ch nowMs : ℚ) (source : Img) :
    List Shader → LoopState Img Prog → LoopState Img Prog
  | [], acc => acc
  | sh :: rest, acc =>
    match lookup sh with
    | none => renderPasses run lookup objs cw ch nowMs source rest acc
    | some p =>
      let target := if rest.isEmpty then Target.screen else Target.fb (acc.tIdx % 2)
      let out := run p (uniformSet sh objs cw ch nowMs) (texValue source acc.st acc.cur)
      let draws := acc.draws ++ [⟨p, sh.id, sh.name, acc.cur, target⟩]
      let acc' : LoopState Img Prog :=
        if rest.isEmpty then
          { cur := acc.cur, tIdx := acc.tIdx, st := writeTarget target out acc.st,
            draws := draws }
        else
          { cur := Tex.pool (acc.tIdx % 2), tIdx := acc.tIdx + 1,
            st := writeTarget target out acc.st, draws := draws }
      renderPasses run lookup objs cw ch nowMs source rest acc'

/-- Semantics of the fixed pass-through fragment shader created in the
zero-enabled-shaders branch (render lines 196-203): it outputs
texture2D(u_texture, v_texCoord) over the full-screen quad, i.e. the
input image unchanged. -/
def passthrough {Img : Type} (img : Img) : Img := img

/-- Embeds one invocation of render (WebGLRenderer.tsx lines 184-323)
after the video texture upload succeeded: filter the enabled shaders; if
none, draw the source to the visible canvas through the pass-through
program; otherwise run the multi-pass loop starting from the video
texture with textureIndex 0. -/
def renderTick {Img Prog : Type} (compile : String → Option Prog)
    (run : Prog → List (String × UniformValue) → Img → Img)
    (shaders : List Shader) (objs : List CanvasObject)
    (cw ch nowMs : ℚ) (source : Img) (st0 : RenderState Img) :
    LoopState Img Prog :=
  let enabledShaders := shaders.filter (fun sh => sh.enabled)
  if enabledShaders.isEmpty then
    { cur := Tex.video, tIdx := 0,
      st := writeTarget Target.screen (passthrough source) st0, draws := [] }
  else
    renderPasses run (programLookup compile shaders) objs cw ch nowMs source
      enabledShaders
      { cur := Tex.video, tIdx := 0, st := st0, draws := [] }

/-- Embeds reorderShaders of ShaderStudio (unnamed part_002 lines 152-160):
splice the element out at dragIndex and splice it back in at hoverIndex.
The sidebar's handleDrop (unnamed part_005 lines 81-97) performs the same
two splices after resolving the dragged id to its index.  An out-of-range
dragIndex reads undefined in JS; the claim concerns in-range indices only,
so that case is modelled as leaving the list unchanged. -/
def reorderShaders (dragIndex hoverIndex : ℕ) (l : List Shader) : List Shader :=
  match l[dragIndex]? with
  | none => l
  | some draggedShader =>
    (l.eraseIdx dragIndex).insertIdx hoverIndex draggedShader

/-- Embeds the tool state of ShaderStudio: the currently selected tool. -/
inductive Tool where
  | select
  | text
  | rect
  | circle
  deriving DecidableEq, Repr

/-- Embeds addObject of ShaderStudio (unnamed part_002 lines 92-111): with
the select tool nothing happens; otherwise a new object with the fixed
initial fields is appended to the end of the object list (setObjects
prev =&gt; [...prev, newObject]).  nowId stands for Date.now().toString(). -/
def addObject (tool : Tool) (nowId : String) (x y : ℚ)
    (objs : List CanvasObject) : List CanvasObject :=
  match tool with
  | Tool.select => objs
  | Tool.text =>
    objs ++ [{ id := nowId, type := ObjType.text, x := x - 50, y := y - 25,
               width := 100, height := 50, rotation := 0, color := "#ff0000",
               text := some "Sample Text", visible := true }]
  | Tool.rect =>
    objs ++ [{ id := nowId, type := ObjType.rect, x := x - 50, y := y - 25,
               width := 100, height := 50, rotation := 0, color := "#ff0000",
               text := none, visible := true }]
  | Tool.circle =>
    objs ++ [{ id := nowId, type := ObjType.circle, x := x - 50, y := y - 25,
               width := 100, height := 50, rotation := 0, color := "#ff0000",
               text := none, visible := true }]

/-- One shape drawn on the 2-D overlay canvas, identified by the object it
came from and its kind. -/
structure OverlayCmd where
  objId : String
  kind : ObjType
  deriving DecidableEq, Repr

/-- Draw command the overlay emits for one object (the type switch of
drawObjects, unnamed part_001 lines 59-90). -/
def overlayCmd (o : CanvasObject) : OverlayCmd := ⟨o.id, o.type⟩

/-- Embeds the objects.forEach of drawObjects (unnamed part_001 lines
31-93): an object with visible false is skipped (early return line 33),
every other object produces one draw. -/
def overlayCmds : List CanvasObject → List OverlayCmd
  | [] => []
  | o :: os => if o.visible then overlayCmd o :: overlayCmds os else overlayCmds os

/-- Embeds drawObjects (unnamed part_001 lines 17-94): after clearing, the
whole layer is skipped when objectsVisible is false (line 28), otherwise
each individually visible object is drawn. -/
def drawObjects (objectsVisible : Bool) (objs : List CanvasObject) :
    List OverlayCmd :=
  if objectsVisible then overlayCmds objs else []

/-- Events of the frame source that touch its readiness flags: the two
handlers of useVideoCanvasRenderer (VideoCanvasRenderer.tsx lines 59-93)
and the two handlers of useVideoManager (unnamed part_006 lines 17-71). -/
inductive SourceEvent where
  | canvasLoadedData
  | canvasError
  | managerLoadedData
  | managerError
  deriving DecidableEq, Repr

/-- Readiness-related state of the frame source: usingFallback and
videoReady of useVideoCanvasRenderer plus the studio's isVideoLoaded flag
set through setIsVideoLoaded. -/
structure SourceState where
  usingFallback : Bool
  videoReady : Bool
  isVideoLoaded : Bool
  deriving DecidableEq, Repr

/-- State transition per frame-source event, embedded from the handler
bodies: onloadeddata sets videoReady and isVideoLoaded true; onerror
switches to the fallback and sets isVideoLoaded true (createFallback
Animation line 216); the manager hook's handlers set isVideoLoaded true
on both load success and error fallback.  No handler ever writes false. -/
def sourceStep : SourceEvent → SourceState → SourceState
  | SourceEvent.canvasLoadedData, s => { s with videoReady := true, isVideoLoaded := true }
  | SourceEvent.canvasError, s => { s with usingFallback := true, isVideoLoaded := true }
  | SourceEvent.managerLoadedData, s => { s with isVideoLoaded := true }
  | SourceEvent.managerError, s => { s with isVideoLoaded := true }

/-- Folds a whole session's frame-source events over the state. -/
def runSource (evts : List SourceEvent) (s : SourceState) : SourceState :=
  evts.foldl (fun st e => sourceStep e st) s

/-! Helper lemmas and the claim theorems. -/

/-- Bound on association-list lookup results from a bound on the table's
value column. -/
lemma lookup_le {α : Type} [BEq α] (m : ℕ) :
    ∀ (tbl : List (α × ℕ)) (c : α) (d : ℕ), (∀ p ∈ tbl, p.2 ≤ m) →
      tbl.lookup c = some d → d ≤ m
  | [], _, _, _, h => by simp [List.lookup] at h
  | (k, v) :: es, c, d, hb, h => by
    rw [List.lookup] at h
    by_cases hk : c == k
    · rw [hk] at h
      simp only [Option.some.injEq] at h
      subst h
      exact hb (k, v) (List.mem_cons_self _ _)
    · simp only [Bool.not_eq_true] at hk
      rw [hk] at h
      exact lookup_le m es c d (fun p hp => hb p (List.mem_cons_of_mem _ hp)) h

/-- Every hexadecimal digit value is at most 15. -/
lemma hexDigitVal_le (c : Char) (d : ℕ) (h : hexDigitVal c = some d) : d ≤ 15 := by
  rw [hexDigitVal] at h
  exact lookup_le 15 _ c d (by decide) h

/-- Parsing at most two hex digits yields a byte value. -/
lemma parseHex?_le_255 (cs : List Char) (hlen : cs.length ≤ 2) (n : ℕ)
    (h : parseHex? cs = some n) : n ≤ 255 := by
  match cs with
  | [] => simp [parseHex?] at h
  | [c] =>
    rw [parseHex?] at h
    cases hc : hexDigitVal c with
    | none => rw [hc] at h; cases h
    | some d =>
      rw [hc] at h
      simp only [parseHexAux, Option.some.injEq] at h
      have := hexDigitVal_le c d hc
      omega
  | [c1, c2] =>
    rw [parseHex?] at h
    cases hc1 : hexDigitVal c1 with
    | none => rw [hc1] at h; cases h
    | some d1 =>
      rw [hc1] at h
      simp only [Option.some.injEq] at h
      rw [parseHexAux] at h
      have h1 := hexDigitVal_le c1 d1 hc1
      cases hc2 : hexDigitVal c2 with
      | none => rw [hc2] at h; simp only [parseHexAux] at h; omega
      | some d2 =>
        rw [hc2] at h
        simp only [parseHexAux] at h
        have h2 := hexDigitVal_le c2 d2 hc2
        omega
  | c1 :: c2 :: c3 :: rest => simp at hlen

/-- Decoded color components are bytes divided by 255, hence in [0, 1]. -/
lemma decodeColor_bounds (s : String) (r g b : ℚ)
    (h : decodeColor s = some (r, g, b)) :
    (0 ≤ r ∧ r ≤ 1) ∧ (0 ≤ g ∧ g ≤ 1) ∧ (0 ≤ b ∧ b ≤ 1) := by
  rw [decodeColor] at h
  set cs := stripHash s.data with hcs
  cases hr : parseHex? (cs.take 2) with
  | none => rw [hr] at h; cases h
  | some nr =>
    cases hg : parseHex? ((cs.drop 2).take 2) with
    | none => rw [hr, hg] at h; cases h
    | some ng =>
      cases hb : parseHex? ((cs.drop 4).take 2) with
      | none => rw [hr, hg, hb] at h; cases h
      | some nb =>
        rw [hr, hg, hb] at h
        simp only [Option.some.injEq, Prod.mk.injEq] at h
        obtain ⟨h1, h2, h3⟩ := h
        have b1 := parseHex?_le_255 _ (List.length_take_le 2 cs) _ hr
        have b2 := parseHex?_le_255 _ (List.length_take_le 2 (cs.drop 2)) _ hg
        have b3 := parseHex?_le_255 _ (List.length_take_le 2 (cs.drop 4)) _ hb
        subst h1 h2 h3
        refine ⟨⟨by positivity, ?_⟩, ⟨by positivity, ?_⟩, ⟨by positivity, ?_⟩⟩ <;>
          · rw [div_le_one (by norm_num)]
            exact_mod_cast by assumption

/-- Concrete decode of the spec's test color. -/
lemma decodeColor_ff6b6b :
    decodeColor "#ff6b6b" = some (255 / 255, 107 / 255, 107 / 255) := by
  have hr : parseHex? ((stripHash "#ff6b6b".data).take 2) = some 255 := by decide
  have hg : parseHex? (((stripHash "#ff6b6b".data).drop 2).take 2) = some 107 := by
    decide
  have hb : parseHex? (((stripHash "#ff6b6b".data).drop 4).take 2) = some 107 := by
    decide
  simp only [decodeColor, hr, hg, hb]
  norm_num

/-- C6 (confirmed).  For every object whose colorHex decodes, the Uniform
Binder's color triple has every component in [0, 1], and the concrete
string given in the spec decodes to (255/255, 107/255, 107/255). -/
theorem c6_color_decode (s : String) (r g b : ℚ)
    (h : decodeColor s = some (r, g, b)) :
    ((0 ≤ r ∧ r ≤ 1) ∧ (0 ≤ g ∧ g ≤ 1) ∧ (0 ≤ b ∧ b ≤ 1)) ∧
    decodeColor "#ff6b6b" = some (255 / 255, 107 / 255, 107 / 255) :=
  ⟨decodeColor_bounds s r g b h, decodeColor_ff6b6b⟩

/-- Witness for C6 at the spec's concrete color string. -/
theorem c6_color_decode_witness :
    ((0 ≤ (255 : ℚ) / 255 ∧ (255 : ℚ) / 255 ≤ 1) ∧
     (0 ≤ (107 : ℚ) / 255 ∧ (107 : ℚ) / 255 ≤ 1) ∧
     (0 ≤ (107 : ℚ) / 255 ∧ (107 : ℚ) / 255 ≤ 1)) ∧
    decodeColor "#ff6b6b" = some (255 / 255, 107 / 255, 107 / 255) :=
  c6_color_decode "#ff6b6b" (255 / 255) (107 / 255) (107 / 255) decodeColor_ff6b6b

/-- Spec-side formula of section 4.4 for the pos input, written from the
spec's words for comparison against the code's objPos. -/
def posSpec (x y w h vw vh : ℚ) : ℚ × ℚ :=
  ((x + w / 2) / vw, 1 - (y + h / 2) / vh)

/-- Object of the spec's Uniform Binder test: x=100, y=100, width=100,
height=50. -/
def sampleObject : CanvasObject :=
  { id := "obj0", type := ObjType.rect, x := 100, y := 100, width := 100,
    height := 50, text := none, color := "#ff0000", rotation := 0,
    visible := true }

/-- C5 counterexample.  The claim's concrete value (0.21875, 1 - 125/450)
is wrong: the code computes ((100 + 100/2)/800, ...) = (0.1875, ...), and
0.21875 = 7/32 differs from 150/800 = 3/16. -/
theorem c5_pos_counterexample :
    objPos sampleObject 800 450 ≠ (7 / 32, 1 - 125 / 450) := by
  simp only [objPos, sampleObject, Prod.mk.injEq, not_and]
  intro h
  norm_num at h

/-- C5 (amended).  The pos input is the normalized flipped center exactly
as the spec's formula states, and at the spec's concrete object and
viewport it equals (0.1875, 1 - 125/450), not (0.21875, ...). -/
theorem c5_pos_uniform (o : CanvasObject) (cw ch : ℚ) :
    objPos o cw ch = posSpec o.x o.y o.width o.height cw ch ∧
    objPos sampleObject 800 450 = (3 / 16, 1 - 125 / 450) := by
  refine ⟨rfl, ?_⟩
  simp only [objPos, sampleObject, Prod.mk.injEq]
  norm_num

/-- C7 counterexample.  The value bound to u_time is Date.now()/1000.  On
a session that pauses at wall-clock 5000 ms (last tick supplies 5) and
resumes with a tick at wall-clock 7000 ms, the first tick after resume
supplies 7, not the value at pause: time advanced while paused. -/
theorem c7_time_counterexample :
    suppliedTime 5000 = 5 ∧ suppliedTime 7000 = 7 ∧
    suppliedTime 7000 ≠ suppliedTime 5000 := by
  refine ⟨by norm_num [suppliedTime], by norm_num [suppliedTime], ?_⟩
  norm_num [suppliedTime]

/-- C7 (amended).  The u_time input is the wall-clock timestamp in
seconds: across any two ticks it never decreases when the wall clock does
not, and it strictly advances whenever the wall clock does - including
across a pause/resume gap. -/
theorem c7_time_wall_clock (t1 t2 : ℚ) :
    (t1 ≤ t2 → suppliedTime t1 ≤ suppliedTime t2) ∧
    (t1 < t2 → suppliedTime t1 < suppliedTime t2) := by
  unfold suppliedTime
  constructor <;> intro h <;> linarith

/-- Witness for C7's amended theorem at the pause/resume instants. -/
theorem c7_time_wall_clock_witness :
    suppliedTime 5000 ≤ suppliedTime 7000 ∧
    suppliedTime 5000 < suppliedTime 7000 :=
  ⟨(c7_time_wall_clock 5000 7000).1 (by norm_num),
   (c7_time_wall_clock 5000 7000).2 (by norm_num)⟩

/-- Every frame-source event handler leaves isVideoLoaded true. -/
lemma sourceStep_loaded (e : SourceEvent) (s : SourceState) :
    (sourceStep e s).isVideoLoaded = true := by
  cases e <;> rfl

/-- C9 (confirmed).  Each frame-source transition either sets the
readiness flag true or leaves it unchanged, and along any event sequence
the flag never returns to false once true. -/
theorem c9_monotonic_readiness :
    (∀ (e : SourceEvent) (s : SourceState),
      (sourceStep e s).isVideoLoaded = true ∨
      (sourceStep e s).isVideoLoaded = s.isVideoLoaded) ∧
    (∀ (evts : List SourceEvent) (s : SourceState),
      s.isVideoLoaded = true → (runSource evts s).isVideoLoaded = true) := by
  constructor
  · intro e s
    exact Or.inl (sourceStep_loaded e s)
  · intro evts
    induction evts with
    | nil => intro s h; exact h
    | cons e es ih =>
      intro s _
      have : runSource (e :: es) s = runSource es (sourceStep e s) := rfl
      rw [this]
      exact ih (sourceStep e s) (sourceStep_loaded e s)

/-- Witness for C9: a ready source stays ready through a load error. -/
theorem c9_monotonic_readiness_witness :
    (runSource [SourceEvent.canvasError] ⟨false, false, true⟩).isVideoLoaded
      = true :=
  c9_monotonic_readiness.2 [SourceEvent.canvasError] ⟨false, false, true⟩ rfl

/-- Per-object uniform group reads only geometry, rotation and color, so
changing visible flags changes nothing. -/
lemma objUniformGroup_set_visible (i : ℕ) (o : CanvasObject) (v : Bool)
    (cw ch : ℚ) :
    objUniformGroup i { o with visible := v } cw ch = objUniformGroup i o cw ch := by
  rfl

/-- The object uniform list is invariant under arbitrary rewrites of the
visible flags. -/
lemma objectUniforms_map_visible (f : CanvasObject → Bool) (cw ch : ℚ) :
    ∀ (objs : List CanvasObject) (i : ℕ),
      objectUniforms i (objs.map (fun o => { o with visible := f o })) cw ch
        = objectUniforms i objs cw ch
  | [], _ => rfl
  | o :: os, i => by
    simp only [List.map_cons, objectUniforms]
    rw [objUniformGroup_set_visible, objectUniforms_map_visible f cw ch os (i + 1)]

/-- Every object contributes exactly its four named inputs. -/
lemma objectUniforms_length (cw ch : ℚ) :
    ∀ (objs : List CanvasObject) (i : ℕ),
      (objectUniforms i objs cw ch).length = 4 * objs.length
  | [], _ => rfl
  | o :: os, i => by
    simp only [objectUniforms, List.length_append, List.length_cons,
      objectUniforms_length cw ch os (i + 1)]
    simp [objUniformGroup]
    ring

/-- The overlay draws exactly the individually visible objects, in order. -/
lemma overlayCmds_eq_filter :
    ∀ objs : List CanvasObject,
      overlayCmds objs = (objs.filter (fun o => o.visible)).map overlayCmd
  | [] => rfl
  | o :: os => by
    by_cases hv : o.visible <;>
      simp [overlayCmds, List.filter_cons, hv, overlayCmds_eq_filter os]

/-- C8 (confirmed).  The Uniform Binder populates four inputs per object
regardless of the visible flag - rewriting visibility arbitrarily leaves
the supplied uniform list unchanged - while the separate 2-D overlay layer
draws exactly the objects with visible = true (and nothing when the layer
itself is hidden). -/
theorem c8_binder_ignores_visible (objs : List CanvasObject)
    (f : CanvasObject → Bool) (cw ch : ℚ) :
    objectUniforms 0 (objs.map (fun o => { o with visible := f o })) cw ch
      = objectUniforms 0 objs cw ch ∧
    (objectUniforms 0 objs cw ch).length = 4 * objs.length ∧
    drawObjects true objs = (objs.filter (fun o => o.visible)).map overlayCmd ∧
    drawObjects false objs = [] :=
  ⟨objectUniforms_map_visible f cw ch objs 0,
   objectUniforms_length cw ch objs 0,
   overlayCmds_eq_filter objs,
   rfl⟩

/-- Appending one object to the list extends the uniform list by that
object's group at the next free index and changes nothing before it. -/
lemma objectUniforms_append (cw ch : ℚ) (o : CanvasObject) :
    ∀ (objs : List CanvasObject) (i : ℕ),
      objectUniforms i (objs ++ [o]) cw ch
        = objectUniforms i objs cw ch ++ objUniformGroup (i + objs.length) o cw ch
  | [], i => by simp [objectUniforms]
  | a :: os, i => by
    simp only [List.cons_append, List.append_eq, objectUniforms, List.length_cons]
    rw [objectUniforms_append cw ch o os (i + 1), ← List.append_assoc]
    have h : i + 1 + os.length = i + (os.length + 1) := by omega
    rw [h]

/-- C10 (confirmed).  Adding an object with a non-select tool appends the
new object at the end: every existing index still holds the same object,
and the supplied uniform list is the old one extended by the new object's
group at the next index - names and values of all earlier objects'
uniforms are untouched. -/
theorem c10_add_object_appends (tool : Tool) (nowId : String) (x y : ℚ)
    (objs : List CanvasObject) (cw ch : ℚ) (htool : tool ≠ Tool.select) :
    ∃ newObj,
      addObject tool nowId x y objs = objs ++ [newObj] ∧
      (∀ k, k < objs.length → (addObject tool nowId x y objs)[k]? = objs[k]?) ∧
      objectUniforms 0 (addObject tool nowId x y objs) cw ch
        = objectUniforms 0 objs cw ch
          ++ objUniformGroup objs.length newObj cw ch := by
  have happ : ∀ (newObj : CanvasObject),
      addObject tool nowId x y objs = objs ++ [newObj] →
      (∀ k, k < objs.length → (addObject tool nowId x y objs)[k]? = objs[k]?) ∧
      objectUniforms 0 (addObject tool nowId x y objs) cw ch
        = objectUniforms 0 objs cw ch
          ++ objUniformGroup objs.length newObj cw ch := by
    intro newObj h
    rw [h]
    constructor
    · intro k hk
      exact List.getElem?_append_left hk
    · have := objectUniforms_append cw ch newObj objs 0
      simpa using this
  cases tool with
  | select => exact absurd rfl htool
  | text => exact ⟨_, rfl, happ _ rfl⟩
  | rect => exact ⟨_, rfl, happ _ rfl⟩
  | circle => exact ⟨_, rfl, happ _ rfl⟩

/-- Witness for C10: adding a rectangle to a one-object list appends. -/
theorem c10_add_object_appends_witness :
    ∃ newObj,
      addObject Tool.rect "n1" 60 40 [sampleObject] = [sampleObject] ++ [newObj] := by
  obtain ⟨newObj, h, -, -⟩ :=
    c10_add_object_appends Tool.rect "n1" 60 40 [sampleObject] 800 450 (by decide)
  exact ⟨newObj, h⟩

/-- Lookup below the insertion point is unchanged. -/
lemma getElem?_insertIdx_lt {α : Type} (x : α) :
    ∀ (n k : ℕ) (l : List α), k < n → n ≤ l.length →
      (l.insertIdx n x)[k]? = l[k]?
  | 0, k, _, hk, _ => absurd hk (Nat.not_lt_zero k)
  | n + 1, _, [], _, hn => by simp at hn
  | n + 1, 0, a :: l, _, _ => by
    rw [List.insertIdx_succ_cons, List.getElem?_cons_zero, List.getElem?_cons_zero]
  | n + 1, k + 1, a :: l, hk, hn => by
    rw [List.insertIdx_succ_cons, List.getElem?_cons_succ, List.getElem?_cons_succ]
    exact getElem?_insertIdx_lt x n k l (by omega) (by simpa using hn)

/-- Lookup at the insertion point finds the inserted element. -/
lemma getElem?_insertIdx_self' {α : Type} (x : α) :
    ∀ (n : ℕ) (l : List α), n ≤ l.length → (l.insertIdx n x)[n]? = some x
  | 0, l, _ => by rw [List.insertIdx_zero, List.getElem?_cons_zero]
  | n + 1, [], hn => by simp at hn
  | n + 1, a :: l, hn => by
    rw [List.insertIdx_succ_cons, List.getElem?_cons_succ]
    exact getElem?_insertIdx_self' x n l (by simpa using hn)

/-- Lookup above the insertion point sees the element one position down. -/
lemma getElem?_insertIdx_succ {α : Type} (x : α) :
    ∀ (n k : ℕ) (l : List α), n ≤ k → n ≤ l.length →
      (l.insertIdx n x)[k + 1]? = l[k]?
  | 0, k, l, _, _ => by rw [List.insertIdx_zero, List.getElem?_cons_succ]
  | n + 1, _, [], _, hn => by simp at hn
  | n + 1, k, a :: l, hk, hn =>
    match k, hk with
    | k + 1, hk => by
      rw [List.insertIdx_succ_cons, List.getElem?_cons_succ, List.getElem?_cons_succ]
      exact getElem?_insertIdx_succ x n k l (by omega) (by simpa using hn)

/-- Insertion is a permutation of pushing the element on the front. -/
lemma insertIdx_perm {α : Type} (x : α) :
    ∀ (n : ℕ) (l : List α), n ≤ l.length → (l.insertIdx n x).Perm (x :: l)
  | 0, l, _ => by rw [List.insertIdx_zero]
  | n + 1, [], hn => by simp at hn
  | n + 1, a :: l, hn => by
    rw [List.insertIdx_succ_cons]
    exact ((insertIdx_perm x n l (by simpa using hn)).cons a).trans
      (List.Perm.swap x a l)

/-- A list is a permutation of its i-th element consed on the erasure. -/
lemma cons_eraseIdx_perm {α : Type} :
    ∀ (l : List α) (i : ℕ) (a : α), l[i]? = some a → l.Perm (a :: l.eraseIdx i)
  | [], i, a, h => by simp at h
  | b :: l, 0, a, h => by
    simp only [List.getElem?_cons_zero, Option.some.injEq] at h
    subst h
    exact List.Perm.refl _
  | b :: l, i + 1, a, h => by
    rw [List.getElem?_cons_succ] at h
    exact ((cons_eraseIdx_perm l i a h).cons b).trans
      (List.Perm.swap a b (l.eraseIdx i))

/-- C3 (confirmed).  Moving the pass at index i to index j (the two
splices of reorderShaders) permutes the list - same passes, fields
untouched - and the result's positions are exactly the moved ones: the
dragged pass sits at j, passes outside the affected span keep their
index, and the passes between i and j shift by one toward the vacated
side. -/
theorem c3_reorder_move (l : List Shader) (i j : ℕ) (hi : i < l.length)
    (hj : j < l.length) :
    (reorderShaders i j l).Perm l ∧
    (reorderShaders i j l).length = l.length ∧
    (reorderShaders i j l)[j]? = l[i]? ∧
    (∀ k, k < i → k < j → (reorderShaders i j l)[k]? = l[k]?) ∧
    (∀ k, i < k → j < k → (reorderShaders i j l)[k]? = l[k]?) ∧
    (∀ k, i ≤ k → k < j → (reorderShaders i j l)[k]? = l[k + 1]?) ∧
    (∀ k, j < k → k ≤ i → (reorderShaders i j l)[k]? = l[k - 1]?) := by
  obtain ⟨x, hx⟩ : ∃ x, l[i]? = some x := ⟨_, List.getElem?_eq_getElem hi⟩
  have hre : reorderShaders i j l = (l.eraseIdx i).insertIdx j x := by
    unfold reorderShaders
    rw [hx]
  have hel : (l.eraseIdx i).length = l.length - 1 := List.length_eraseIdx_of_lt hi
  have hj' : j ≤ (l.eraseIdx i).length := by omega
  rw [hre]
  refine ⟨?_, ?_, ?_, ?_, ?_, ?_, ?_⟩
  · exact (insertIdx_perm x j _ hj').trans (cons_eraseIdx_perm l i x hx).symm
  · rw [List.length_insertIdx _ _ hj']
    omega
  · exact (getElem?_insertIdx_self' x j _ hj').trans hx.symm
  · intro k hki hkj
    rw [getElem?_insertIdx_lt x j k _ hkj hj',
      List.getElem?_eraseIdx_of_lt l i k hki]
  · intro k hik hjk
    by_cases hkl : k < l.length
    · obtain ⟨m, rfl⟩ : ∃ m, k = m + 1 := ⟨k - 1, by omega⟩
      rw [getElem?_insertIdx_succ x j m _ (by omega) hj',
        List.getElem?_eraseIdx_of_ge l i m (by omega)]
    · have hlen : (List.insertIdx j x (l.eraseIdx i)).length = l.length := by
        rw [List.length_insertIdx _ _ hj']
        omega
      have h1 : (List.insertIdx j x (l.eraseIdx i))[k]? = none :=
        List.getElem?_eq_none (by omega)
      have h2 : l[k]? = none := List.getElem?_eq_none (by omega)
      rw [h1, h2]
  · intro k hik hkj
    rw [getElem?_insertIdx_lt x j k _ hkj hj',
      List.getElem?_eraseIdx_of_ge l i k hik]
  · intro k hjk hki
    obtain ⟨m, rfl⟩ : ∃ m, k = m + 1 := ⟨k - 1, by omega⟩
    rw [getElem?_insertIdx_succ x j m _ (by omega) hj',
      List.getElem?_eraseIdx_of_lt l i m (by omega)]
    simp

/-- Three distinct passes used by the concrete witnesses below. -/
def demoShaders : List Shader :=
  [{ id := "a", name := "A", fragmentShader := "srcA", enabled := true, uniforms := [] },
   { id := "b", name := "B", fragmentShader := "srcB", enabled := true, uniforms := [] },
   { id := "c", name := "C", fragmentShader := "srcC", enabled := true, uniforms := [] }]

/-- Witness for C3: moving pass 0 to position 2 permutes the demo list. -/
theorem c3_reorder_move_witness :
    (reorderShaders 0 2 demoShaders).Perm demoShaders :=
  (c3_reorder_move demoShaders 0 2 (by decide) (by decide)).1

/-- When every element maps to some value, filterMap is a map. -/
lemma filterMap_eq_map_of_some {α β : Type} (f : α → Option β) (g : α → β) :
    ∀ (l : List α), (∀ x ∈ l, f x = some (g x)) → l.filterMap f = l.map g
  | [], _ => rfl
  | a :: l, h => by
    rw [List.filterMap_cons, h a (List.mem_cons_self _ _), List.map_cons,
      filterMap_eq_map_of_some f g l (fun x hx => h x (List.mem_cons_of_mem _ hx))]

/-- With pairwise-distinct ids, findIndex by id recovers exactly the
element searched for. -/
lemma findIdx_id_getElem? :
    ∀ (shaders : List Shader), (shaders.map Shader.id).Nodup →
      ∀ sh ∈ shaders,
        shaders[shaders.findIdx (fun s => s.id == sh.id)]? = some sh
  | [], _, sh, hmem => by simp at hmem
  | a :: rest, hids, sh, hmem => by
    rw [List.map_cons, List.nodup_cons] at hids
    obtain ⟨hna, hrest⟩ := hids
    by_cases hpa : a.id = sh.id
    · have : sh = a := by
        rcases List.mem_cons.mp hmem with h | h
        · exact h
        · exact absurd (hpa ▸ List.mem_map_of_mem Shader.id h) hna
      subst this
      simp [List.findIdx_cons, hpa]
    · have hne : (a.id == sh.id) = false := beq_eq_false_iff_ne.mpr hpa
      have hmem' : sh ∈ rest := by
        rcases List.mem_cons.mp hmem with h | h
        · exact absurd (h ▸ rfl) hpa
        · exact h
      rw [List.findIdx_cons, hne]
      simp only [cond_false]
      rw [List.getElem?_cons_succ]
      exact findIdx_id_getElem? rest hrest sh hmem'

/-- When every shader compiles and ids are distinct, the render loop's
indexed lookup into the compacted program array returns each shader's own
compiled program. -/
lemma programLookup_eq {Prog : Type} (compile : String → Option Prog)
    (shaders : List Shader) (pr : Shader → Prog)
    (hcomp : ∀ sh ∈ shaders, compile sh.fragmentShader = some (pr sh))
    (hids : (shaders.map Shader.id).Nodup) (sh : Shader) (hmem : sh ∈ shaders) :
    programLookup compile shaders sh = some (pr sh) := by
  unfold programLookup setupPrograms
  rw [filterMap_eq_map_of_some _ pr shaders hcomp, List.getElem?_map,
    findIdx_id_getElem? shaders hids sh hmem]
  rfl

/-- Core invariant of the multi-pass loop: when every remaining pass's
program resolves, the visible output after the loop is the left fold of
the pass effects over the image currently designated as input. -/
lemma renderPasses_screen {Img Prog : Type}
    (run : Prog → List (String × UniformValue) → Img → Img)
    (lookup : Shader → Option Prog) (objs : List CanvasObject)
    (cw ch nowMs : ℚ) (source : Img) (pr : Shader → Prog) :
    ∀ (l : List Shader) (acc : LoopState Img Prog), l ≠ [] →
      (∀ sh ∈ l, lookup sh = some (pr sh)) →
      (renderPasses run lookup objs cw ch nowMs source l acc).st.screen
        = l.foldl (fun img sh => run (pr sh) (uniformSet sh objs cw ch nowMs) img)
            (texValue source acc.st acc.cur)
  | [], _, hne, _ => absurd rfl hne
  | [a], acc, _, hlook => by
    rw [renderPasses, hlook a (List.mem_cons_self _ _)]
    simp [renderPasses, writeTarget, List.foldl_cons]
  | a :: b :: rest, acc, _, hlook => by
    rw [renderPasses, hlook a (List.mem_cons_self _ _)]
    simp only [List.isEmpty_cons, if_neg Bool.false_ne_true, List.foldl_cons]
    rw [renderPasses_screen run lookup objs cw ch nowMs source pr (b :: rest) _
      (by simp) (fun sh hsh => hlook sh (List.mem_cons_of_mem _ hsh))]
    simp [writeTarget, texValue]

/-- C1 (confirmed).  One render tick with an empty enabled list draws the
source image unmodified to the visible output; with a nonempty enabled
list (all of whose programs compile, under the data model's distinct-id
invariant) it produces the strictly sequential left-to-right application
of the enabled passes, each pass reading the previous pass's output and
the first reading the source image, with the last pass's result on the
visible output. -/
theorem c1_sequential_pipeline {Img Prog : Type}
    (compile : String → Option Prog)
    (run : Prog → List (String × UniformValue) → Img → Img)
    (shaders : List Shader) (objs : List CanvasObject) (cw ch nowMs : ℚ)
    (source : Img) (st0 : RenderState Img) (pr : Shader → Prog)
    (hcomp : ∀ sh ∈ shaders, compile sh.fragmentShader = some (pr sh))
    (hids : (shaders.map Shader.id).Nodup) :
    (shaders.filter (fun sh => sh.enabled) = [] →
      (renderTick compile run shaders objs cw ch nowMs source st0).st.screen
        = source) ∧
    (shaders.filter (fun sh => sh.enabled) ≠ [] →
      (renderTick compile run shaders objs cw ch nowMs source st0).st.screen
        = (shaders.filter (fun sh => sh.enabled)).foldl
            (fun img sh => run (pr sh) (uniformSet sh objs cw ch nowMs) img)
            source) := by
  constructor
  · intro h
    rw [renderTick]
    simp [h, writeTarget, passthrough]
  · intro h
    rw [renderTick]
    have hne : (shaders.filter (fun sh => sh.enabled)).isEmpty = false := by
      simpa [List.isEmpty_iff] using h
    rw [if_neg (by simp [hne])]
    exact renderPasses_screen run (programLookup compile shaders) objs cw ch
      nowMs source pr _ _ h
      (fun sh hsh =>
        programLookup_eq compile shaders pr hcomp hids sh
          (List.mem_of_mem_filter hsh))

/-- Compiler used by the witnesses: every source compiles to itself. -/
def demoCompileAll : String → Option String := fun s => some s

/-- Draw semantics used by the witnesses: each pass adds 100 to a
numeric image, so pass count and order are visible in the output. -/
def demoRun : String → List (String × UniformValue) → ℕ → ℕ :=
  fun _ _ img => img + 100

/-- Initial surface contents used by the witnesses. -/
def demoState : RenderState ℕ := { pool := fun _ => 0, screen := 0 }

/-- Witness for C1: three enabled passes over source image 7 put the
three-fold application 307 on the visible output. -/
theorem c1_sequential_pipeline_witness :
    (renderTick demoCompileAll demoRun demoShaders [] 800 450 0 7
      demoState).st.screen = 307 := by
  have h := (c1_sequential_pipeline demoCompileAll demoRun demoShaders [] 800 450
    0 7 demoState (fun sh => sh.fragmentShader)
    (fun sh _ => rfl) (by decide)).2 (by decide)
  rw [h]
  rfl

/-- Closed form (derived for the proofs below, not a source function) of
the draw-call sequence the loop emits when every program resolves:
starting at pool index t, each non-final pass reads the running input and
targets slot t % 2, the pool index advancing by one per pass; the final
pass targets the screen. -/
def mkDraws {Prog : Type} (pr : Shader → Prog) :
    List Shader → Tex → ℕ → List (DrawCall Prog)
  | [], _, _ => []
  | [sh], c, _ => [⟨pr sh, sh.id, sh.name, c, Target.screen⟩]
  | sh :: b :: rest, c, t =>
    ⟨pr sh, sh.id, sh.name, c, Target.fb (t % 2)⟩
      :: mkDraws pr (b :: rest) (Tex.pool (t % 2)) (t + 1)

/-- The loop's draw log is the accumulated log extended by the closed-form
sequence. -/
lemma renderPasses_draws {Img Prog : Type}
    (run : Prog → List (String × UniformValue) → Img → Img)
    (lookup : Shader → Option Prog) (objs : List CanvasObject)
    (cw ch nowMs : ℚ) (source : Img) (pr : Shader → Prog) :
    ∀ (l : List Shader) (acc : LoopState Img Prog),
      (∀ sh ∈ l, lookup sh = some (pr sh)) →
      (renderPasses run lookup objs cw ch nowMs source l acc).draws
        = acc.draws ++ mkDraws pr l acc.cur acc.tIdx
  | [], acc, _ => by simp [renderPasses, mkDraws]
  | [a], acc, hlook => by
    rw [renderPasses, hlook a (List.mem_cons_self _ _)]
    simp [renderPasses, mkDraws]
  | a :: b :: rest, acc, hlook => by
    rw [renderPasses, hlook a (List.mem_cons_self _ _)]
    simp only [List.isEmpty_cons, if_neg Bool.false_ne_true]
    rw [renderPasses_draws run lookup objs cw ch nowMs source pr (b :: rest) _
      (fun sh hsh => hlook sh (List.mem_cons_of_mem _ hsh))]
    simp [mkDraws, List.append_assoc]

/-- One draw per pass. -/
lemma mkDraws_length {Prog : Type} (pr : Shader → Prog) :
    ∀ (l : List Shader) (c : Tex) (t : ℕ), (mkDraws pr l c t).length = l.length
  | [], _, _ => rfl
  | [_], _, _ => rfl
  | _ :: b :: rest, _, t => by
    simp only [mkDraws, List.length_cons,
      mkDraws_length pr (b :: rest) (Tex.pool (t % 2)) (t + 1)]

/-- No draw in the sequence reads the slot it writes, provided the
running input is the video frame or the slot written by the previous
pass (which is the one of opposite parity). -/
lemma mkDraws_no_self_feedback {Prog : Type} (pr : Shader → Prog) :
    ∀ (l : List Shader) (c : Tex) (t : ℕ),
      (c = Tex.video ∨ c = Tex.pool ((t + 1) % 2)) →
      ∀ d ∈ mkDraws pr l c t, ∀ s, d.target = Target.fb s → d.input ≠ Tex.pool s
  | [], _, _, _, d, hd => by simp [mkDraws] at hd
  | [sh], c, t, _, d, hd => by
    simp only [mkDraws, List.mem_singleton] at hd
    subst hd
    intro s hs
    cases hs
  | sh :: b :: rest, c, t, hc, d, hd => by
    rw [mkDraws, List.mem_cons] at hd
    rcases hd with rfl | hd
    · intro s hs
      simp only [Target.fb.injEq] at hs
      subst hs
      rcases hc with rfl | rfl
      · intro h
        cases h
      · intro h
        simp only [Tex.pool.injEq] at h
        omega
    · exact mkDraws_no_self_feedback pr (b :: rest) (Tex.pool (t % 2)) (t + 1)
        (Or.inr (by rw [show t + 1 + 1 = t + 2 from rfl, Nat.add_mod_right])) d hd

/-- Every draw before the last targets the pooled slot of index
(t + position) % 2: the output slot cycles through the two ping-pong
slots as the pool index advances between passes. -/
lemma mkDraws_target {Prog : Type} (pr : Shader → Prog) :
    ∀ (l : List Shader) (c : Tex) (t : ℕ) (k : ℕ), k + 1 < l.length →
      ∃ d, (mkDraws pr l c t)[k]? = some d ∧ d.target = Target.fb ((t + k) % 2)
  | [], _, _, k, hk => by simp at hk
  | [_], _, _, k, hk => by simp at hk
  | sh :: b :: rest, c, t, 0, _ => by
    refine ⟨_, by rw [mkDraws, List.getElem?_cons_zero], ?_⟩
    simp
  | sh :: b :: rest, c, t, k + 1, hk => by
    obtain ⟨d, hd, ht⟩ := mkDraws_target pr (b :: rest) (Tex.pool (t % 2)) (t + 1) k
      (by simpa using hk)
    refine ⟨d, ?_, ?_⟩
    · rw [mkDraws, List.getElem?_cons_succ]
      exact hd
    · rw [ht]
      have : t + 1 + k = t + (k + 1) := by omega
      rw [this]

/-- The final draw of a nonempty sequence targets the visible output. -/
lemma mkDraws_last {Prog : Type} (pr : Shader → Prog) :
    ∀ (l : List Shader) (c : Tex) (t : ℕ), l ≠ [] →
      ∃ d, (mkDraws pr l c t)[l.length - 1]? = some d ∧ d.target = Target.screen
  | [], _, _, hne => absurd rfl hne
  | [sh], c, t, _ =>
    ⟨⟨pr sh, sh.id, sh.name, c, Target.screen⟩, by simp [mkDraws], rfl⟩
  | sh :: b :: rest, c, t, _ => by
    obtain ⟨d, hd, ht⟩ :=
      mkDraws_last pr (b :: rest) (Tex.pool (t % 2)) (t + 1) (by simp)
    refine ⟨d, ?_, ht⟩
    have hlen : (sh :: b :: rest).length - 1 = ((b :: rest).length - 1) + 1 := by
      simp
    rw [hlen, mkDraws, List.getElem?_cons_succ]
    exact hd

/-- C2 (confirmed).  For any number of enabled passes in one tick (all
compiling, distinct ids), the loop issues one draw per enabled pass; every
draw before the last targets the ping-pong slot draw-index % 2 (the pool
index advancing only between passes), the last draw targets the visible
output, and no draw's bound input texture is the pooled slot it renders
into. -/
theorem c2_no_read_write_hazard {Img Prog : Type}
    (compile : String → Option Prog)
    (run : Prog → List (String × UniformValue) → Img → Img)
    (shaders : List Shader) (objs : List CanvasObject) (cw ch nowMs : ℚ)
    (source : Img) (st0 : RenderState Img) (pr : Shader → Prog)
    (hcomp : ∀ sh ∈ shaders, compile sh.fragmentShader = some (pr sh))
    (hids : (shaders.map Shader.id).Nodup)
    (hne : shaders.filter (fun sh => sh.enabled) ≠ []) :
    (renderTick compile run shaders objs cw ch nowMs source st0).draws.length
      = (shaders.filter (fun sh => sh.enabled)).length ∧
    (∀ d ∈ (renderTick compile run shaders objs cw ch nowMs source st0).draws,
      ∀ s, d.target = Target.fb s → d.input ≠ Tex.pool s) ∧
    (∀ k, k + 1 < (shaders.filter (fun sh => sh.enabled)).length →
      ∃ d, (renderTick compile run shaders objs cw ch nowMs source
              st0).draws[k]? = some d ∧
        d.target = Target.fb (k % 2)) ∧
    (∃ d, (renderTick compile run shaders objs cw ch nowMs source
            st0).draws[(shaders.filter (fun sh => sh.enabled)).length - 1]?
          = some d ∧
      d.target = Target.screen) := by
  have hlook : ∀ sh ∈ shaders.filter (fun sh => sh.enabled),
      programLookup compile shaders sh = some (pr sh) := fun sh hsh =>
    programLookup_eq compile shaders pr hcomp hids sh (List.mem_of_mem_filter hsh)
  have hisne : (shaders.filter (fun sh => sh.enabled)).isEmpty = false := by
    simpa [List.isEmpty_iff] using hne
  have hdraws :
      (renderTick compile run shaders objs cw ch nowMs source st0).draws
        = mkDraws pr (shaders.filter (fun sh => sh.enabled)) Tex.video 0 := by
    rw [renderTick, if_neg (by simp [hisne])]
    rw [renderPasses_draws run (programLookup compile shaders) objs cw ch nowMs
      source pr _ _ hlook]
    simp
  refine ⟨?_, ?_, ?_, ?_⟩
  · rw [hdraws, mkDraws_length]
  · rw [hdraws]
    exact mkDraws_no_self_feedback pr _ Tex.video 0 (Or.inl rfl)
  · intro k hk
    rw [hdraws]
    obtain ⟨d, hd, ht⟩ := mkDraws_target pr _ Tex.video 0 k hk
    exact ⟨d, hd, by simpa using ht⟩
  · rw [hdraws]
    exact mkDraws_last pr _ Tex.video 0 hne

/-- Witness for C2 on the three-pass demo pipeline. -/
theorem c2_no_read_write_hazard_witness :
    (renderTick demoCompileAll demoRun demoShaders [] 800 450 0 7
      demoState).draws.length
      = (demoShaders.filter (fun sh => sh.enabled)).length :=
  (c2_no_read_write_hazard demoCompileAll demoRun demoShaders [] 800 450 0 7
    demoState (fun sh => sh.fragmentShader) (fun sh _ => rfl) (by decide)
    (by decide)).1

/-- Shader whose fragment source fails to compile. -/
def badShader : Shader :=
  { id := "bad", name := "Broken", fragmentShader := "BAD", enabled := true,
    uniforms := [] }

/-- Shader whose fragment source compiles. -/
def goodShader : Shader :=
  { id := "good", name := "Valid", fragmentShader := "GOOD", enabled := true,
    uniforms := [] }

/-- Compiler that rejects exactly the broken source. -/
def demoCompileBad : String → Option String :=
  fun s => if s = "BAD" then none else some s

/-- C4 (code bug exhibit).  With the failing pass first in the list,
setupWebGL pushes only the good shader's program, so the render loop's
index-based lookup pairs the broken pass with the program compiled from
the valid shader's source: the tick issues exactly one draw - for the
broken pass, using the program of source GOOD, into a pooled slot - the
valid pass is skipped, and the visible output is never written. -/
theorem c4_misaligned_program_lookup :
    ((renderTick demoCompileBad demoRun [badShader, goodShader] [] 800 450 0 7
        demoState).draws.map (fun d => (d.shaderName, d.prog, d.target))
      = [("Broken", "GOOD", Target.fb 0)]) ∧
    (renderTick demoCompileBad demoRun [badShader, goodShader] [] 800 450 0 7
        demoState).st.screen = demoState.screen := by
  constructor <;> rfl

end ShaderPipeline
